import Mathlib

/-
Verification of the ingestion pipeline in src/pydanticAI_crawl4AI.py.

Text is modelled as List Char (Python strings are sequences of code points).
Python slicing text[start:end] becomes (text.drop start).take (end - start).
External service calls (OpenAI chat / embeddings, Supabase, the crawler) are
modelled as oracle arguments describing the outcome of each call.
-/

/-- Model of Python str.isspace for the characters str.strip removes.  We cover
the ASCII whitespace characters (space, tab, LF, CR, VT, FF); Python also
strips rare Unicode whitespace, which none of the claims exercise. -/
def pyIsSpace (c : Char) : Bool :=
  c == ' ' || c == '\t' || c == '\n' || c == '\r' || c == Char.ofNat 11 || c == Char.ofNat 12

/-- Model of Python str.strip: drop leading and trailing whitespace. -/
def pyStrip (l : List Char) : List Char :=
  ((l.dropWhile pyIsSpace).reverse.dropWhile pyIsSpace).reverse

/-- Characters that survive trimming; used to state content preservation. -/
def keepNonSpace (c : Char) : Bool := !(pyIsSpace c)

/-- Scan positions n-1, n-2, ..., 0 for the last occurrence of pat. -/
def rfindAux (w pat : List Char) : Nat → Option Nat
  | 0 => none
  | n + 1 => if pat.isPrefixOf (w.drop n) then some n else rfindAux w pat n

/-- Model of Python str.rfind: index of the last occurrence of pat in w,
none when pat does not occur (Python returns -1). -/
def rfindList (w pat : List Char) : Option Nat :=
  rfindAux w pat w.length

/-- The fenced-code-block delimiter, three backquote characters
(source line 50 searches for it with rfind). -/
def fenceDelim : List Char := List.replicate 3 (Char.ofNat 96)

/-- The blank-line (paragraph) boundary, two newline characters (line 54). -/
def paraBreak : List Char := ['\n', '\n']

/-- The sentence-terminating period (line 59). -/
def periodDelim : List Char := ['.']

/-- The 30% acceptance test: source compares a break position against
chunk_size * 0.3 (lines 51, 56, 61).  We use the exact rational comparison
10 * pos > 3 * cs.  Python compares against the binary double chunk_size * 0.3,
which agrees with the rational comparison away from the exact boundary; for the
source sole call site (chunk_size = 5000, threshold 1500.0) the two agree at
every integer. -/
def accept30 (cs pos : Nat) : Bool := 3 * cs < 10 * pos

/-- The elif chain of chunk_text, lines 54-62: if a blank line occurs in the
window, take the last one when it passes the 30% test, otherwise keep the naive
cut (the period branch is not reached); only when no blank line occurs at all
is the last period considered. -/
def windowEndPara (w : List Char) (cs : Nat) : Nat :=
  match rfindList w paraBreak with
  | some lb => if accept30 cs lb then lb else cs
  | none =>
    match rfindList w periodDelim with
    | some lp => if accept30 cs lp then lp else cs
    | none => cs

/-- Window-end selection of chunk_text, lines 50-62, as an offset from the
window start: the last code-fence delimiter when it exists and passes the 30%
test, otherwise the elif chain; cs is the naive cut. -/
def windowEnd (w : List Char) (cs : Nat) : Nat :=
  match rfindList w fenceDelim with
  | some cb => if accept30 cs cb then cb else windowEndPara w cs
  | none => windowEndPara w cs

/-- The while loop of chunk_text (source lines 40-69), recursing on the cursor.
Each iteration: if the window reaches the end of the text, the rest is stripped
and appended unconditionally (lines 44-46); otherwise the window end is chosen
by windowEnd, the stripped slice is appended when non-empty (lines 64-67), and
the cursor advances to max (start+1) end (line 69). -/
def chunkTextAux (text : List Char) (cs : Nat) (start : Nat) : List (List Char) :=
  if _h1 : start < text.length then
    if text.length ≤ start + cs then
      [pyStrip (text.drop start)]
    else
      let d := windowEnd ((text.drop start).take cs) cs
      let chunk := pyStrip ((text.drop start).take d)
      let rest := chunkTextAux text cs (max (start + 1) (start + d))
      if chunk = [] then rest else chunk :: rest
  else []
termination_by text.length - start
decreasing_by
  have hm : start + 1 ≤ max (start + 1) (start + windowEnd ((text.drop start).take cs) cs) :=
    Nat.le_max_left _ _
  omega

/-- chunk_text (source lines 35-70): split text into chunks. -/
def chunk_text (text : List Char) (cs : Nat) : List (List Char) :=
  chunkTextAux text cs 0

/-- Fuel-indexed version of the chunk_text loop, used to state termination:
out of fuel returns none; otherwise one loop iteration exactly as in
chunkTextAux. -/
def chunkTextFuel (text : List Char) (cs : Nat) : Nat → Nat → Option (List (List Char))
  | 0, _ => none
  | fuel + 1, start =>
    if start < text.length then
      if text.length ≤ start + cs then
        some [pyStrip (text.drop start)]
      else
        let d := windowEnd ((text.drop start).take cs) cs
        let chunk := pyStrip ((text.drop start).take d)
        match chunkTextFuel text cs fuel (max (start + 1) (start + d)) with
        | none => none
        | some rest => some (if chunk = [] then rest else chunk :: rest)
    else some []

/-- Modelled from the spec: a break candidate, accepted only when it lies past
30% of the window. -/
def acceptedBreak (w pat : List Char) (cs : Nat) : Option Nat :=
  match rfindList w pat with
  | some i => if accept30 cs i then some i else none
  | none => none

/-- Modelled from the spec words of claim C4: search the window in priority
order for an accepted break point, fence first, else blank line, else period;
when none is accepted the window end stays at the naive cut. -/
def windowEndSpec (w : List Char) (cs : Nat) : Nat :=
  match acceptedBreak w fenceDelim cs with
  | some i => i
  | none =>
    match acceptedBreak w paraBreak cs with
    | some i => i
    | none =>
      match acceptedBreak w periodDelim cs with
      | some i => i
      | none => cs

/-- The chunk_text loop with the spec break-point selection substituted. -/
def chunkTextSpecFuel (text : List Char) (cs : Nat) : Nat → Nat → Option (List (List Char))
  | 0, _ => none
  | fuel + 1, start =>
    if start < text.length then
      if text.length ≤ start + cs then
        some [pyStrip (text.drop start)]
      else
        let d := windowEndSpec ((text.drop start).take cs) cs
        let chunk := pyStrip ((text.drop start).take d)
        match chunkTextSpecFuel text cs fuel (max (start + 1) (start + d)) with
        | none => none
        | some rest => some (if chunk = [] then rest else chunk :: rest)
    else some []

/-- The spec-words variant of chunk_text (claim C4), total via sufficient fuel. -/
def chunkTextSpec (text : List Char) (cs : Nat) : List (List Char) :=
  (chunkTextSpecFuel text cs (text.length + 1) 0).getD []

/-- The amended break-point selection: like the spec version, except that when
a blank line occurs anywhere in the window but fails the 30% test, the period
fallback is not consulted and the naive cut stands. -/
def windowEndAmended (w : List Char) (cs : Nat) : Nat :=
  match acceptedBreak w fenceDelim cs with
  | some i => i
  | none =>
    if (rfindList w paraBreak).isSome then
      match acceptedBreak w paraBreak cs with
      | some i => i
      | none => cs
    else
      match acceptedBreak w periodDelim cs with
      | some i => i
      | none => cs

/-- The chunk_text loop with the amended break-point selection substituted. -/
def chunkTextFuelAmended (text : List Char) (cs : Nat) : Nat → Nat → Option (List (List Char))
  | 0, _ => none
  | fuel + 1, start =>
    if start < text.length then
      if text.length ≤ start + cs then
        some [pyStrip (text.drop start)]
      else
        let d := windowEndAmended ((text.drop start).take cs) cs
        let chunk := pyStrip ((text.drop start).take d)
        match chunkTextFuelAmended text cs fuel (max (start + 1) (start + d)) with
        | none => none
        | some rest => some (if chunk = [] then rest else chunk :: rest)
    else some []

/-- The amended-claim variant of chunk_text (claim C4), total via sufficient
fuel. -/
def chunkTextAmended (text : List Char) (cs : Nat) : List (List Char) :=
  (chunkTextFuelAmended text cs (text.length + 1) 0).getD []

/-
Per-chunk enrichment (source lines 72-127).  The chat-completion call, the
embedding call, the current timestamp and the parsed URL path are external
effects; the model takes their outcomes as arguments.
-/

/-- Python exceptions that can escape the modelled code. -/
inductive PyErr where
  | keyError (key : String)
deriving DecidableEq

/-- Metadata dict assembled at source lines 113-118.  crawled_at stands for
datetime.now(timezone.utc).isoformat() and url_path for urlparse(url).path,
both supplied by the environment. -/
structure ChunkMetadata where
  source : String
  size : Nat
  crawled_at : String
  url_path : String
deriving DecidableEq

/-- The ProcessedChunk dataclass (source lines 25-33).  Embedding entries are
modelled as integers; only the dimension and zero-ness of vectors matter to
the claims. -/
structure ProcessedChunk where
  url : String
  chunk_number : Nat
  title : String
  summary : String
  content : List Char
  metadata : ChunkMetadata
  embedding : List Int
deriving DecidableEq

/-- The dict returned by the except branch of get_title_and_summary (source
line 92), verbatim: its keys are "title" and "processsing" - the second key is
a typo, the value shows "summary" was intended. -/
def titleSummaryOnFailure : List (String × String) :=
  [("title", "Error processing title"), ("processsing", "Error processsing summary")]

/-- get_title_and_summary (source lines 72-92).  The oracle is the outcome of
the try block: some fields when the chat call and json.loads succeed (the JSON
object as an association list), none when any exception is raised inside the
try; the except branch then returns the sentinel dict. -/
def get_title_and_summary (svcResult : Option (List (String × String))) :
    List (String × String) :=
  match svcResult with
  | some fields => fields
  | none => titleSummaryOnFailure

/-- get_embedding (source lines 94-104): the service vector on success,
[0] * 1536 when the call raises. -/
def get_embedding (svcResult : Option (List Int)) : List Int :=
  match svcResult with
  | some v => v
  | none => List.replicate 1536 0

/-- Python dict subscription d[k]: the value, or a KeyError. -/
def dictGet (d : List (String × String)) (k : String) : Except PyErr String :=
  match d.lookup k with
  | some v => Except.ok v
  | none => Except.error (PyErr.keyError k)

/-- process_chunk (source lines 106-127).  extracted["title"] and
extracted["summary"] are evaluated while building the ProcessedChunk and raise
KeyError when missing; every other step is total. -/
def process_chunk (enrichResult : Option (List (String × String)))
    (embedResult : Option (List Int)) (chunk : List Char) (chunk_number : Nat)
    (url now url_path : String) : Except PyErr ProcessedChunk :=
  let extracted := get_title_and_summary enrichResult
  let embedding := get_embedding embedResult
  match dictGet extracted "title" with
  | Except.error e => Except.error e
  | Except.ok title =>
    match dictGet extracted "summary" with
    | Except.error e => Except.error e
    | Except.ok summary =>
      Except.ok
        { url := url
          chunk_number := chunk_number
          title := title
          summary := summary
          content := chunk
          metadata :=
            { source := "PydanticAI_docs"
              size := chunk.length
              crawled_at := now
              url_path := url_path }
          embedding := embedding }

/-
Per-page processing (source lines 129-165).
-/

/-- asyncio.gather with return_exceptions left False (source lines 158, 165,
198): when every task returns, the list of results; when some task raises, the
exception propagates to the awaiter (we surface the first raising task in list
order) and the results of the siblings are discarded. -/
def gatherExcept {α : Type} : List (Except PyErr α) → Except PyErr (List α)
  | [] => Except.ok []
  | Except.error e :: _ => Except.error e
  | Except.ok a :: tl =>
    match gatherExcept tl with
    | Except.error e => Except.error e
    | Except.ok l => Except.ok (a :: l)

/-- insert_chunk (source lines 129-146): the Supabase write is wrapped in a
catch-all try/except, so it never raises; the oracle says whether the write
succeeded (on failure the function prints and returns None). -/
def insert_chunk (storeOk : Bool) (_c : ProcessedChunk) : Bool := storeOk

/-- The task list built at source lines 150-157: chunk_text with its default
chunk_size 5000, then one process_chunk task per chunk, the chunk index bound
by enumerate before any task runs.  The oracles give the enrichment of each chunk
and embedding call outcomes by chunk index. -/
def page_tasks (enrich : Nat → Option (List (String × String)))
    (embed : Nat → Option (List Int)) (url now url_path : String)
    (markdown : List Char) : List (Except PyErr ProcessedChunk) :=
  ((chunk_text markdown 5000).enum).map
    (fun ic => process_chunk (enrich ic.1) (embed ic.1) ic.2 ic.1 url now url_path)

/-- process_and_store_document (source lines 148-165): gather the per-chunk
tasks, then gather one insert per processed chunk.  When a process_chunk task
raises, the exception propagates and no insert is attempted. -/
def process_and_store_document (enrich : Nat → Option (List (String × String)))
    (embed : Nat → Option (List Int)) (store : Nat → Bool)
    (url now url_path : String) (markdown : List Char) : Except PyErr (List Bool) :=
  match gatherExcept (page_tasks enrich embed url now url_path markdown) with
  | Except.error e => Except.error e
  | Except.ok processed =>
    Except.ok (processed.map (fun c => insert_chunk (store c.chunk_number) c))

/-
crawl_parallel (source lines 167-200).  The claims about it are temporal, so
the per-URL coroutine process_url is modelled as a small transition system.
Per URL the phases are: ready (created, before the semaphore), fetching
(inside the async-with block, awaiting crawler.arun), processing (awaiting
process_and_store_document after a successful fetch), done.  The async-with
block at lines 185-190 contains only the crawler.arun await: the semaphore is
released when the block exits, before the success check at line 191, so the
processing phase runs outside the slot.
-/

/-- Phase of the process_url coroutine of one URL. -/
inductive FetchPhase where
  | ready
  | fetching
  | processing
  | done
deriving DecidableEq

/-- Scheduler state: free semaphore slots and the phase of each URL task. -/
structure CrawlState where
  sem : Nat
  tasks : List FetchPhase
deriving DecidableEq

/-- Number of tasks currently awaiting crawler.arun. -/
def fetchCount (l : List FetchPhase) : Nat :=
  l.countP (fun p => decide (p = FetchPhase.fetching))

/-- Number of tasks in the fetch-or-process phase. -/
def busyCount (l : List FetchPhase) : Nat :=
  l.countP (fun p => decide (p = FetchPhase.fetching ∨ p = FetchPhase.processing))

/-- One scheduler step of crawl_parallel; succ i says whether the fetch of URL i
returns with result.success = True.  acquire: a ready task enters the
async-with block when a slot is free (line 185).  fetchEnds: crawler.arun
returns, the block exits releasing the slot, and the task moves to processing
on success or finishes on failure (lines 186-196).  processEnds:
process_and_store_document returns (line 193). -/
inductive CrawlStep (succ : Nat → Bool) : CrawlState → CrawlState → Prop where
  | acquire (s : CrawlState) (i : Nat) (hi : i < s.tasks.length)
      (hready : s.tasks.get ⟨i, hi⟩ = FetchPhase.ready) (hsem : 0 < s.sem) :
      CrawlStep succ s ⟨s.sem - 1, s.tasks.set i FetchPhase.fetching⟩
  | fetchEnds (s : CrawlState) (i : Nat) (hi : i < s.tasks.length)
      (hf : s.tasks.get ⟨i, hi⟩ = FetchPhase.fetching) :
      CrawlStep succ s
        ⟨s.sem + 1, s.tasks.set i (if succ i then FetchPhase.processing else FetchPhase.done)⟩
  | processEnds (s : CrawlState) (i : Nat) (hi : i < s.tasks.length)
      (hp : s.tasks.get ⟨i, hi⟩ = FetchPhase.processing) :
      CrawlStep succ s ⟨s.sem, s.tasks.set i FetchPhase.done⟩

/-- States reachable by crawl_parallel with concurrency bound k over n URLs:
the semaphore starts with k slots (line 182) and every task starts ready
(line 198 creates them all before awaiting). -/
inductive CrawlReach (succ : Nat → Bool) (k n : Nat) : CrawlState → Prop where
  | origin : CrawlReach succ k n ⟨k, List.replicate n FetchPhase.ready⟩
  | step {s t : CrawlState} : CrawlReach succ k n s → CrawlStep succ s t → CrawlReach succ k n t

/-
Helper lemmas about the splitter.
-/

lemma rfindAux_lt (w pat : List Char) : ∀ n i, rfindAux w pat n = some i → i < n := by
  intro n
  induction n with
  | zero => intro i h; simp [rfindAux] at h
  | succ n ih =>
    intro i h
    simp only [rfindAux] at h
    split at h
    · cases h; omega
    · have := ih i h; omega

lemma rfindList_lt (w pat : List Char) (i : Nat) (h : rfindList w pat = some i) :
    i < w.length :=
  rfindAux_lt w pat w.length i h

lemma windowEndPara_le (w : List Char) (cs : Nat) (hw : w.length ≤ cs) :
    windowEndPara w cs ≤ cs := by
  unfold windowEndPara
  split
  · rename_i lb hlb
    have := rfindList_lt w paraBreak lb hlb
    split <;> omega
  · split
    · rename_i lp hlp
      have := rfindList_lt w periodDelim lp hlp
      split <;> omega
    · omega

lemma windowEnd_le (w : List Char) (cs : Nat) (hw : w.length ≤ cs) :
    windowEnd w cs ≤ cs := by
  unfold windowEnd
  split
  · rename_i cb hcb
    have := rfindList_lt w fenceDelim cb hcb
    split
    · omega
    · exact windowEndPara_le w cs hw
  · exact windowEndPara_le w cs hw

lemma windowEndPara_pos (w : List Char) (cs : Nat) (hcs : 0 < cs) :
    0 < windowEndPara w cs := by
  unfold windowEndPara
  split
  · split
    · rename_i hacc
      simp only [accept30, decide_eq_true_eq] at hacc
      omega
    · omega
  · split
    · split
      · rename_i hacc
        simp only [accept30, decide_eq_true_eq] at hacc
        omega
      · omega
    · omega

lemma windowEnd_pos (w : List Char) (cs : Nat) (hcs : 0 < cs) : 0 < windowEnd w cs := by
  unfold windowEnd
  split
  · split
    · rename_i hacc
      simp only [accept30, decide_eq_true_eq] at hacc
      omega
    · exact windowEndPara_pos w cs hcs
  · exact windowEndPara_pos w cs hcs

lemma filter_dropWhile_keepNonSpace (l : List Char) :
    (l.dropWhile pyIsSpace).filter keepNonSpace = l.filter keepNonSpace := by
  induction l with
  | nil => rfl
  | cons a l ih =>
    by_cases ha : pyIsSpace a
    · rw [List.dropWhile_cons_of_pos ha, ih, List.filter_cons]
      simp [keepNonSpace, ha]
    · rw [List.dropWhile_cons_of_neg ha]

lemma pyStrip_filter (l : List Char) :
    (pyStrip l).filter keepNonSpace = l.filter keepNonSpace := by
  unfold pyStrip
  rw [List.filter_reverse, filter_dropWhile_keepNonSpace, List.filter_reverse,
    List.reverse_reverse, filter_dropWhile_keepNonSpace]

lemma pyStrip_length_le (l : List Char) : (pyStrip l).length ≤ l.length := by
  unfold pyStrip
  have h1 := (List.dropWhile_sublist (l := ((l.dropWhile pyIsSpace).reverse)) pyIsSpace).length_le
  have h2 := (List.dropWhile_sublist (l := l) pyIsSpace).length_le
  simp only [List.length_reverse] at h1 ⊢
  omega

lemma chunkTextFuel_complete (text : List Char) (cs : Nat) :
    ∀ fuel start, text.length - start < fuel →
      chunkTextFuel text cs fuel start = some (chunkTextAux text cs start) := by
  intro fuel
  induction fuel with
  | zero => intro start h; omega
  | succ fuel ih =>
    intro start h
    rw [chunkTextAux]
    simp only [chunkTextFuel]
    by_cases h1 : start < text.length
    · simp only [if_pos h1, dif_pos h1]
      by_cases h2 : text.length ≤ start + cs
      · simp [h2]
      · simp only [if_neg h2, dif_neg h2]
        rw [ih (max (start + 1) (start + windowEnd ((text.drop start).take cs) cs))
          (by have := Nat.le_max_left (start + 1)
                (start + windowEnd ((text.drop start).take cs) cs); omega)]
    · simp [h1]

lemma chunk_text_eq_of_fuel {t : List Char} {cs : Nat} {l : List (List Char)}
    (h : chunkTextFuel t cs (t.length + 1) 0 = some l) : chunk_text t cs = l := by
  have hc := chunkTextFuel_complete t cs (t.length + 1) 0 (by omega)
  rw [hc] at h
  exact Option.some.inj h

lemma chunkTextFuel_mem_length_le (t : List Char) (cs : Nat) :
    ∀ fuel start r, chunkTextFuel t cs fuel start = some r → ∀ c ∈ r, c.length ≤ cs := by
  intro fuel
  induction fuel with
  | zero => intro start r hr; simp [chunkTextFuel] at hr
  | succ fuel ih =>
    intro start r hr
    simp only [chunkTextFuel] at hr
    by_cases h1 : start < t.length
    · rw [if_pos h1] at hr
      by_cases h2 : t.length ≤ start + cs
      · rw [if_pos h2] at hr
        have hre := Option.some.inj hr
        subst hre
        intro c hc
        simp only [List.mem_singleton] at hc
        subst hc
        have hl := pyStrip_length_le (t.drop start)
        have hd : (t.drop start).length = t.length - start := List.length_drop start t
        omega
      · rw [if_neg h2] at hr
        split at hr
        · exact absurd hr (by simp)
        · rename_i rest hrec
          have hre := Option.some.inj hr
          subst hre
          intro c hc
          have hwin : ((t.drop start).take cs).length ≤ cs := by
            simp [List.length_take]
          have hdle := windowEnd_le ((t.drop start).take cs) cs hwin
          split at hc
          · exact ih _ rest hrec c hc
          · rcases List.mem_cons.mp hc with hc | hc
            · subst hc
              have hl := pyStrip_length_le
                ((t.drop start).take (windowEnd ((t.drop start).take cs) cs))
              have hlt : ((t.drop start).take
                  (windowEnd ((t.drop start).take cs) cs)).length ≤
                    windowEnd ((t.drop start).take cs) cs := by
                simp [List.length_take]
              omega
            · exact ih _ rest hrec c hc
    · rw [if_neg h1] at hr
      have hre := Option.some.inj hr
      subst hre
      intro c hc
      simp at hc

lemma chunkTextFuel_flatten_filter (t : List Char) (cs : Nat) (hcs : 0 < cs) :
    ∀ fuel start r, chunkTextFuel t cs fuel start = some r →
      r.flatten.filter keepNonSpace = (t.drop start).filter keepNonSpace := by
  intro fuel
  induction fuel with
  | zero => intro start r hr; simp [chunkTextFuel] at hr
  | succ fuel ih =>
    intro start r hr
    simp only [chunkTextFuel] at hr
    by_cases h1 : start < t.length
    · rw [if_pos h1] at hr
      by_cases h2 : t.length ≤ start + cs
      · rw [if_pos h2] at hr
        have hre := Option.some.inj hr
        subst hre
        simp [pyStrip_filter]
      · rw [if_neg h2] at hr
        split at hr
        · exact absurd hr (by simp)
        · rename_i rest hrec
          have hre := Option.some.inj hr
          subst hre
          have hd1 : 0 < windowEnd ((t.drop start).take cs) cs :=
            windowEnd_pos ((t.drop start).take cs) cs hcs
          have hmax : max (start + 1) (start + windowEnd ((t.drop start).take cs) cs) =
              start + windowEnd ((t.drop start).take cs) cs := by omega
          rw [hmax] at hrec
          have ihr := ih _ rest hrec
          have hsplit : (t.drop start).filter keepNonSpace =
              ((t.drop start).take (windowEnd ((t.drop start).take cs) cs)).filter keepNonSpace
                ++ (t.drop (start + windowEnd ((t.drop start).take cs) cs)).filter keepNonSpace := by
            conv_lhs => rw [← List.take_append_drop
              (windowEnd ((t.drop start).take cs) cs) (t.drop start)]
            rw [List.filter_append, List.drop_drop]
          split
          · rename_i hnil
            have hfe : ((t.drop start).take
                (windowEnd ((t.drop start).take cs) cs)).filter keepNonSpace = [] := by
              rw [← pyStrip_filter, hnil, List.filter_nil]
            rw [ihr, hsplit, hfe, List.nil_append]
          · simp only [List.flatten_cons, List.filter_append]
            rw [pyStrip_filter, ihr, hsplit]
    · rw [if_neg h1] at hr
      have hre := Option.some.inj hr
      subst hre
      have : t.drop start = [] := List.drop_eq_nil_of_le (by omega)
      simp [this]

lemma chunkTextFuel_dropLast_ne_nil (t : List Char) (cs : Nat) :
    ∀ fuel start r, chunkTextFuel t cs fuel start = some r → ∀ c ∈ r.dropLast, c ≠ [] := by
  intro fuel
  induction fuel with
  | zero => intro start r hr; simp [chunkTextFuel] at hr
  | succ fuel ih =>
    intro start r hr
    simp only [chunkTextFuel] at hr
    by_cases h1 : start < t.length
    · rw [if_pos h1] at hr
      by_cases h2 : t.length ≤ start + cs
      · rw [if_pos h2] at hr
        have hre := Option.some.inj hr
        subst hre
        intro c hc
        simp at hc
      · rw [if_neg h2] at hr
        split at hr
        · exact absurd hr (by simp)
        · rename_i rest hrec
          have hre := Option.some.inj hr
          subst hre
          split
          · exact ih _ rest hrec
          · rename_i hne
            intro c hc
            cases rest with
            | nil => simp at hc
            | cons r0 rs =>
              rw [List.dropLast_cons₂] at hc
              rcases List.mem_cons.mp hc with hc | hc
              · subst hc; exact hne
              · exact ih _ (r0 :: rs) hrec c hc
    · rw [if_neg h1] at hr
      have hre := Option.some.inj hr
      subst hre
      intro c hc
      simp at hc


lemma windowEnd_eq_amended (w : List Char) (cs : Nat) :
    windowEnd w cs = windowEndAmended w cs := by
  unfold windowEnd windowEndAmended windowEndPara acceptedBreak
  cases hcb : rfindList w fenceDelim <;>
    cases hlb : rfindList w paraBreak <;>
      cases hlp : rfindList w periodDelim <;>
        simp <;> (try split) <;> simp_all <;> (try split) <;> simp_all

lemma chunkTextFuelAmended_eq (t : List Char) (cs : Nat) :
    ∀ fuel start, chunkTextFuelAmended t cs fuel start = chunkTextFuel t cs fuel start := by
  intro fuel
  induction fuel with
  | zero => intro start; rfl
  | succ fuel ih =>
    intro start
    simp only [chunkTextFuelAmended, chunkTextFuel, ← windowEnd_eq_amended, ih]

lemma gatherExcept_error_of_mem {α : Type} (l : List (Except PyErr α)) (e : PyErr)
    (h : Except.error e ∈ l) : ∃ e2, gatherExcept l = Except.error e2 := by
  induction l with
  | nil => simp at h
  | cons hd tl ih =>
    cases hd with
    | error e0 => exact ⟨e0, rfl⟩
    | ok a =>
      rcases List.mem_cons.mp h with h | h
      · exact absurd h (by simp)
      · rcases ih h with ⟨e2, he2⟩
        refine ⟨e2, ?_⟩
        simp only [gatherExcept, he2]

lemma process_chunk_enrich_none (eb : Option (List Int)) (c : List Char) (n : Nat)
    (u v p : String) :
    process_chunk none eb c n u v p = Except.error (PyErr.keyError "summary") := by
  rfl

lemma process_chunk_ok_fields (er : Option (List (String × String)))
    (eb : Option (List Int)) (c : List Char) (n : Nat) (u v p : String)
    (r : ProcessedChunk) (h : process_chunk er eb c n u v p = Except.ok r) :
    r.chunk_number = n ∧ r.content = c := by
  simp only [process_chunk] at h
  split at h
  · exact absurd h (by simp)
  · split at h
    · exact absurd h (by simp)
    · have hre := Except.ok.inj h
      subst hre
      exact ⟨rfl, rfl⟩

lemma countP_set_of_get {α : Type} (p : α → Bool) :
    ∀ (l : List α) (i : Nat) (h : i < l.length) (a : α),
      (l.set i a).countP p + (if p (l.get ⟨i, h⟩) then 1 else 0) =
        l.countP p + (if p a then 1 else 0) := by
  intro l
  induction l with
  | nil => intro i h a; simp at h
  | cons x xs ih =>
    intro i h a
    cases i with
    | zero =>
      have hg : (x :: xs).get ⟨0, h⟩ = x := rfl
      have hs : (x :: xs).set 0 a = a :: xs := rfl
      rw [hg, hs, List.countP_cons, List.countP_cons]
      omega
    | succ i =>
      have hle : i < xs.length := by simpa using h
      have hg : (x :: xs).get ⟨i + 1, h⟩ = xs.get ⟨i, hle⟩ := rfl
      have hs : (x :: xs).set (i + 1) a = x :: xs.set i a := rfl
      rw [hg, hs, List.countP_cons, List.countP_cons]
      have hih := ih i hle a
      omega

lemma crawl_sem_invariant (succ : Nat → Bool) (k n : Nat) :
    ∀ s, CrawlReach succ k n s → s.sem + fetchCount s.tasks = k := by
  intro s h
  induction h with
  | origin =>
    have hz : (List.replicate n FetchPhase.ready).countP
        (fun p => decide (p = FetchPhase.fetching)) = 0 := by
      rw [List.countP_eq_zero]
      intro a ha
      have hae := List.eq_of_mem_replicate ha
      subst hae
      simp
    simp [fetchCount, hz]
  | step hreach hstep ih =>
    rename_i s1 s2
    cases hstep with
    | acquire i hi hready hsem =>
      have hc := countP_set_of_get (fun p => decide (p = FetchPhase.fetching))
        s1.tasks i hi FetchPhase.fetching
      rw [hready] at hc
      simp at hc
      show s1.sem - 1 + fetchCount (s1.tasks.set i FetchPhase.fetching) = k
      simp only [fetchCount] at ih ⊢
      omega
    | fetchEnds i hi hf =>
      have hc := countP_set_of_get (fun p => decide (p = FetchPhase.fetching))
        s1.tasks i hi (if succ i then FetchPhase.processing else FetchPhase.done)
      rw [hf] at hc
      have hnew : (if decide ((if succ i then FetchPhase.processing else FetchPhase.done) =
          FetchPhase.fetching) = true then 1 else 0) = 0 := by
        cases succ i <;> simp
      rw [hnew] at hc
      simp at hc
      show s1.sem + 1 + fetchCount
        (s1.tasks.set i (if succ i then FetchPhase.processing else FetchPhase.done)) = k
      simp only [fetchCount] at ih ⊢
      omega
    | processEnds i hi hp =>
      have hc := countP_set_of_get (fun p => decide (p = FetchPhase.fetching))
        s1.tasks i hi FetchPhase.done
      rw [hp] at hc
      simp at hc
      show s1.sem + fetchCount (s1.tasks.set i FetchPhase.done) = k
      simp only [fetchCount] at ih ⊢
      omega

lemma chunkText_hi : chunk_text (String.toList "hi") 5000 = [['h', 'i']] :=
  chunk_text_eq_of_fuel (by decide)

/-
Claim theorems.
-/

/-- Claim C1: the claim says process_chunk never raises outward and degrades
enrichment failures into sentinel title/summary fields.  The code contradicts
it: the failure dict at source line 92 misspells the key "summary" as
"processsing", so extracted["summary"] at line 123 raises KeyError("summary")
whenever the EnrichmentService call fails, regardless of the embedding
outcome.  The sentinel value "Error processsing summary" shows the claim
matches the intent of the code, so this is a code bug. -/
theorem c1_enrich_failure_raises_keyerror (eb : Option (List Int)) (c : List Char)
    (n : Nat) (u v p : String) :
    process_chunk none eb c n u v p = Except.error (PyErr.keyError "summary") :=
  process_chunk_enrich_none eb c n u v p

/-- Claim C2 (amended): during crawl_parallel with concurrency bound k, at no
instant are more than k URLs in the fetching phase; the semaphore slot covers
only the crawler.arun call, so processing runs outside the slot. -/
theorem c2_fetch_phase_bounded (succ : Nat → Bool) (k n : Nat) (s : CrawlState)
    (h : CrawlReach succ k n s) : fetchCount s.tasks ≤ k := by
  have hinv := crawl_sem_invariant succ k n s h
  omega

/-- Witness for the amended C2 theorem at the initial state with k = 1, n = 1. -/
theorem c2_fetch_phase_bounded_witness :
    CrawlReach (fun _ => true) 1 1 ⟨1, List.replicate 1 FetchPhase.ready⟩ ∧
      fetchCount (List.replicate 1 FetchPhase.ready) ≤ 1 :=
  ⟨CrawlReach.origin, c2_fetch_phase_bounded (fun _ => true) 1 1 _ CrawlReach.origin⟩

/-- Counterexample to claim C2 as stated: with concurrency bound k = 1 and two
URLs, the state where URL 0 is processing while URL 1 is fetching is reachable
(URL 0 acquires the slot, finishes its fetch releasing the slot at the end of
the async-with block, starts processing; URL 1 then acquires the freed slot),
so 2 > 1 URLs are simultaneously in the fetch-or-process phase. -/
theorem c2_slot_excludes_processing_counterexample :
    CrawlReach (fun _ => true) 1 2 ⟨0, [FetchPhase.processing, FetchPhase.fetching]⟩ ∧
      busyCount [FetchPhase.processing, FetchPhase.fetching] = 2 ∧ 1 < 2 := by
  refine ⟨?_, by decide, by decide⟩
  have h0 : CrawlReach (fun _ => true) 1 2 ⟨1, [FetchPhase.ready, FetchPhase.ready]⟩ :=
    CrawlReach.origin
  have s1 : CrawlStep (fun _ => true) ⟨1, [FetchPhase.ready, FetchPhase.ready]⟩
      ⟨0, [FetchPhase.fetching, FetchPhase.ready]⟩ :=
    CrawlStep.acquire ⟨1, [FetchPhase.ready, FetchPhase.ready]⟩ 0 (by decide) rfl (by decide)
  have s2 : CrawlStep (fun _ => true) ⟨0, [FetchPhase.fetching, FetchPhase.ready]⟩
      ⟨1, [FetchPhase.processing, FetchPhase.ready]⟩ :=
    CrawlStep.fetchEnds ⟨0, [FetchPhase.fetching, FetchPhase.ready]⟩ 0 (by decide) rfl
  have s3 : CrawlStep (fun _ => true) ⟨1, [FetchPhase.processing, FetchPhase.ready]⟩
      ⟨0, [FetchPhase.processing, FetchPhase.fetching]⟩ :=
    CrawlStep.acquire ⟨1, [FetchPhase.processing, FetchPhase.ready]⟩ 1 (by decide) rfl (by decide)
  exact CrawlReach.step (CrawlReach.step (CrawlReach.step h0 s1) s2) s3

/-- Claim C3: the claim says the enrichment failure of one chunk never aborts
sibling chunks or the batch.  In the code, an enrichment failure for any chunk
makes its process_chunk task raise KeyError("summary") (the line 92 key typo);
asyncio.gather at line 158 then propagates the exception out of
process_and_store_document, so no chunk of the page is inserted, and the
gather at line 198 propagates it further, aborting crawl_parallel. -/
theorem c3_chunk_failure_aborts_batch (enrich : Nat → Option (List (String × String)))
    (embed : Nat → Option (List Int)) (store : Nat → Bool) (u v p : String)
    (markdown : List Char) (i : Nat) (hi : i < (chunk_text markdown 5000).length)
    (hfail : enrich i = none) :
    ∃ e, process_and_store_document enrich embed store u v p markdown = Except.error e := by
  have hmem : Except.error (PyErr.keyError "summary") ∈ page_tasks enrich embed u v p markdown := by
    apply List.getElem?_mem (n := i)
    unfold page_tasks
    rw [List.getElem?_map, List.enum_eq_enumFrom, List.getElem?_enumFrom,
      List.getElem?_eq_getElem hi]
    simp only [Option.map_some', Nat.zero_add]
    rw [hfail]
    rw [process_chunk_enrich_none]
  rcases gatherExcept_error_of_mem _ _ hmem with ⟨e2, he2⟩
  refine ⟨e2, ?_⟩
  simp only [process_and_store_document, he2]

/-- Witness for the C3 theorem: a one-chunk document whose enrichment call
fails. -/
theorem c3_chunk_failure_aborts_batch_witness :
    (0 < (chunk_text (String.toList "hi") 5000).length ∧
      (fun _ => (none : Option (List (String × String)))) 0 = none) ∧
    ∃ e, process_and_store_document (fun _ => none) (fun _ => none) (fun _ => true)
      "u" "t0" "/p" (String.toList "hi") = Except.error e := by
  have hlen : 0 < (chunk_text (String.toList "hi") 5000).length := by
    rw [chunkText_hi]; decide
  exact ⟨⟨hlen, rfl⟩,
    c3_chunk_failure_aborts_batch (fun _ => none) (fun _ => none) (fun _ => true)
      "u" "t0" "/p" (String.toList "hi") 0 hlen rfl⟩

/-- Counterexample to claim C4 as stated: on the text "ab\n\ncdefg.hiJKLM"
with targetSize 12, the window "ab\n\ncdefg.hi" has its last blank line at
offset 2 (rejected by the 30% test) and its last period at offset 9 (past
30%).  The spec priority chain would break at the period (chunks
"ab\n\ncdefg" / ".hiJKLM"); the elif chain of the code stops at the rejected blank
line and keeps the naive cut (chunks "ab\n\ncdefg.hi" / "JKLM"). -/
theorem c4_priority_chain_counterexample :
    chunk_text (String.toList "ab\n\ncdefg.hiJKLM") 12 ≠
      chunkTextSpec (String.toList "ab\n\ncdefg.hiJKLM") 12 := by
  have he : chunk_text (String.toList "ab\n\ncdefg.hiJKLM") 12 =
      [['a', 'b', '\n', '\n', 'c', 'd', 'e', 'f', 'g', '.', 'h', 'i'],
        ['J', 'K', 'L', 'M']] :=
    chunk_text_eq_of_fuel (by decide)
  rw [he]
  decide

/-- Claim C4 (amended): when the window does not reach the end of the text,
split selects the break point as follows: the last fenced-code-block delimiter
if it lies past 30% of the window; else, when a blank line occurs anywhere in
the window, the last blank-line boundary if it lies past 30% (when the blank
line fails the threshold the period fallback is not consulted); else the last
sentence-terminating period if it lies past 30%; if no break point is accepted
the window end stays at the naive cut. -/
theorem c4_break_priority_amended (t : List Char) (cs : Nat) :
    chunk_text t cs = chunkTextAmended t cs := by
  unfold chunkTextAmended
  rw [chunkTextFuelAmended_eq, chunkTextFuel_complete t cs (t.length + 1) 0 (by omega)]
  rfl

/-- Counterexample to claim C5 as stated: splitting "a.  " with targetSize 2
emits the empty string as its final chunk (the leftover "  " is stripped and
appended without the emptiness guard at source line 45), so split does not
return only non-empty strings. -/
theorem c5_empty_final_chunk_counterexample :
    0 < 2 ∧ ([] : List Char) ∈ chunk_text (String.toList "a.  ") 2 := by
  have he : chunk_text (String.toList "a.  ") 2 = [['a'], ['.'], []] :=
    chunk_text_eq_of_fuel (by decide)
  rw [he]
  exact ⟨by decide, by decide⟩

/-- Claim C5 (amended): every chunk except possibly the final one is non-empty
after trimming: a non-final window that trims to empty is silently dropped
(source line 66), but the final leftover chunk is appended without the
emptiness check (line 45) and is empty when the remaining text is all
whitespace. -/
theorem c5_nonfinal_chunks_nonempty (t : List Char) (cs : Nat) (_hcs : 0 < cs) :
    ∀ c ∈ (chunk_text t cs).dropLast, c ≠ [] := by
  have h := chunkTextFuel_complete t cs (t.length + 1) 0 (by omega)
  exact chunkTextFuel_dropLast_ne_nil t cs (t.length + 1) 0 (chunk_text t cs) h

/-- Witness for the amended C5 theorem. -/
theorem c5_nonfinal_chunks_nonempty_witness :
    0 < 2 ∧ ∀ c ∈ (chunk_text (String.toList "a. b") 2).dropLast, c ≠ [] :=
  ⟨by decide, c5_nonfinal_chunks_nonempty (String.toList "a. b") 2 (by decide)⟩

/-- Claim C6: for every text and every targetSize > 0, the concatenation of
the chunks of split, ignoring whitespace trimmed at chunk edges, reconstructs
the non-whitespace content of the text in original order: the loop partitions the
text into consecutive slices and strip removes only whitespace. -/
theorem c6_concat_preserves_content (t : List Char) (cs : Nat) (hcs : 0 < cs) :
    (chunk_text t cs).flatten.filter keepNonSpace = t.filter keepNonSpace := by
  have h := chunkTextFuel_complete t cs (t.length + 1) 0 (by omega)
  have hf := chunkTextFuel_flatten_filter t cs hcs (t.length + 1) 0 (chunk_text t cs) h
  simpa using hf

/-- Witness for the C6 theorem. -/
theorem c6_concat_preserves_content_witness :
    0 < 2 ∧ (chunk_text (String.toList "a. b") 2).flatten.filter keepNonSpace =
      (String.toList "a. b").filter keepNonSpace :=
  ⟨by decide, c6_concat_preserves_content (String.toList "a. b") 2 (by decide)⟩

/-- Claim C7: no chunk returned by split exceeds targetSize characters.  This
holds in the stronger unconditional form: the selected window end only ever
moves backwards from the naive cut start + targetSize, and the final leftover
chunk is emitted only when it fits the window, so the permissive exception in
the claim (exceeding up to the next boundary) never occurs. -/
theorem c7_chunk_length_bounded (t : List Char) (cs : Nat) (_hcs : 0 < cs) :
    ∀ c ∈ chunk_text t cs, c.length ≤ cs := by
  have h := chunkTextFuel_complete t cs (t.length + 1) 0 (by omega)
  exact chunkTextFuel_mem_length_le t cs (t.length + 1) 0 (chunk_text t cs) h

/-- Witness for the C7 theorem. -/
theorem c7_chunk_length_bounded_witness :
    0 < 2 ∧ ∀ c ∈ chunk_text (String.toList "a. b") 2, c.length ≤ 2 :=
  ⟨by decide, c7_chunk_length_bounded (String.toList "a. b") 2 (by decide)⟩

/-- Claim C8: split terminates for every text and targetSize > 0.  The
fuel-indexed copy of the loop, which returns none when it runs out of
iterations, returns within text.length + 1 iterations from cursor 0 and
computes chunk_text: each iteration advances the cursor to
max (cursor + 1) windowEnd, so the measure text.length - cursor strictly
decreases. -/
theorem c8_chunk_text_terminates (t : List Char) (cs : Nat) (_hcs : 0 < cs) :
    chunkTextFuel t cs (t.length + 1) 0 = some (chunk_text t cs) :=
  chunkTextFuel_complete t cs (t.length + 1) 0 (by omega)

/-- Witness for the C8 theorem. -/
theorem c8_chunk_text_terminates_witness :
    0 < 2 ∧ chunkTextFuel (String.toList "a. b") 2 ((String.toList "a. b").length + 1) 0 =
      some (chunk_text (String.toList "a. b") 2) :=
  ⟨by decide, c8_chunk_text_terminates (String.toList "a. b") 2 (by decide)⟩

/-- Claim C9: when the EmbeddingService call for a chunk fails and the
enrichment call returned a JSON object with title and summary, process_chunk
produces the record with embedding = the zero vector of dimension 1536 (source
line 104) and the title and summary taken from the enrichment result: the two
failure paths are independent and the sentinel vector has the fixed length. -/
theorem c9_embed_failure_zero_vector (fields : List (String × String)) (ti su : String)
    (hti : fields.lookup "title" = some ti) (hsu : fields.lookup "summary" = some su)
    (c : List Char) (n : Nat) (u v p : String) :
    process_chunk (some fields) none c n u v p =
      Except.ok
        { url := u, chunk_number := n, title := ti, summary := su, content := c,
          metadata :=
            { source := "PydanticAI_docs", size := c.length, crawled_at := v, url_path := p },
          embedding := List.replicate 1536 0 } := by
  simp only [process_chunk, get_title_and_summary, get_embedding, dictGet, hti, hsu]

/-- Witness for the C9 theorem. -/
theorem c9_embed_failure_zero_vector_witness :
    ([("title", "T"), ("summary", "S")] : List (String × String)).lookup "title" = some "T" ∧
    ([("title", "T"), ("summary", "S")] : List (String × String)).lookup "summary" = some "S" ∧
    process_chunk (some [("title", "T"), ("summary", "S")]) none ['h', 'i'] 0 "u" "t0" "/p" =
      Except.ok
        { url := "u", chunk_number := 0, title := "T", summary := "S", content := ['h', 'i'],
          metadata :=
            { source := "PydanticAI_docs", size := 2, crawled_at := "t0", url_path := "/p" },
          embedding := List.replicate 1536 0 } :=
  ⟨by decide, by decide,
    c9_embed_failure_zero_vector [("title", "T"), ("summary", "S")] "T" "S"
      (by decide) (by decide) ['h', 'i'] 0 "u" "t0" "/p"⟩

/-- Claim C10: within one page, the chunk index is bound by enumerate when the
task list is built, before any task runs, so whatever record the task at
position i produces carries chunk_number = i and the i-th chunk of the
original text as its content - indices preserve text order independently of
completion order and of the oracle outcomes of the other chunks. -/
theorem c10_index_assigned_in_order (enrich : Nat → Option (List (String × String)))
    (embed : Nat → Option (List Int)) (u v p : String) (markdown : List Char)
    (i : Nat) (r : ProcessedChunk)
    (h : (page_tasks enrich embed u v p markdown)[i]? = some (Except.ok r)) :
    r.chunk_number = i ∧ (chunk_text markdown 5000)[i]? = some r.content := by
  unfold page_tasks at h
  rw [List.getElem?_map, List.enum_eq_enumFrom, List.getElem?_enumFrom] at h
  cases hc : (chunk_text markdown 5000)[i]? with
  | none => rw [hc] at h; simp at h
  | some c =>
    rw [hc] at h
    simp only [Option.map_some', Nat.zero_add] at h
    have hok := Option.some.inj h
    have hfields := process_chunk_ok_fields (enrich i) (embed i) c i u v p r hok
    exact ⟨hfields.1, by rw [hfields.2]⟩

/-- Witness for the C10 theorem on a one-chunk page. -/
theorem c10_index_assigned_in_order_witness :
    (page_tasks (fun _ => some [("title", "T"), ("summary", "S")])
        (fun _ => some [(1 : Int)]) "u" "t0" "/p" (String.toList "hi"))[0]? =
      some (Except.ok
        { url := "u", chunk_number := 0, title := "T", summary := "S", content := ['h', 'i'],
          metadata :=
            { source := "PydanticAI_docs", size := 2, crawled_at := "t0", url_path := "/p" },
          embedding := [(1 : Int)] }) ∧
    ({ url := "u", chunk_number := 0, title := "T", summary := "S", content := ['h', 'i'],
        metadata :=
          { source := "PydanticAI_docs", size := 2, crawled_at := "t0", url_path := "/p" },
        embedding := [(1 : Int)] } : ProcessedChunk).chunk_number = 0 ∧
    (chunk_text (String.toList "hi") 5000)[0]? =
      some (ProcessedChunk.content
        { url := "u", chunk_number := 0, title := "T", summary := "S", content := ['h', 'i'],
          metadata :=
            { source := "PydanticAI_docs", size := 2, crawled_at := "t0", url_path := "/p" },
          embedding := [(1 : Int)] }) := by
  have h : (page_tasks (fun _ => some [("title", "T"), ("summary", "S")])
      (fun _ => some [(1 : Int)]) "u" "t0" "/p" (String.toList "hi"))[0]? =
      some (Except.ok
        { url := "u", chunk_number := 0, title := "T", summary := "S", content := ['h', 'i'],
          metadata :=
            { source := "PydanticAI_docs", size := 2, crawled_at := "t0", url_path := "/p" },
          embedding := [(1 : Int)] }) := by
    unfold page_tasks
    rw [chunkText_hi]
    rfl
  have hr := c10_index_assigned_in_order (fun _ => some [("title", "T"), ("summary", "S")])
    (fun _ => some [(1 : Int)]) "u" "t0" "/p" (String.toList "hi") 0 _ h
  exact ⟨h, hr.1, hr.2⟩
